import Mathlib

set_option maxHeartbeats 4000000
set_option maxRecDepth 100000

/-! Verification development for the lang-land repository.

Shallow embedding of the flashcard markdown parser
(src/utils/restructure_flashcards.js), the markdown composer
(compress_structured.js) and the Chinese word segmenter
(src/src/lib/turnChineseWordsIntoLinks.js).

JavaScript strings are modelled as `List Char` (the inputs involved live in
the basic multilingual plane, where one UTF-16 code unit is one `Char`).
The JavaScript regular expressions used by the source are modelled by a
small backtracking matcher over an explicit syntax (`RE`) that mirrors the
semantics the source relies on: leftmost match, greedy `+` and `?`,
lazy `[\s\S]*?`, zero-width lookahead, `$` with and without the `m` flag.
The matcher carries a fuel argument so that it is structurally recursive
(hence kernel-reducible); the fuel supplied by the wrapper `reMatch`
strictly dominates the lexicographic termination measure (regex size,
input length) of the backtracking search, so the fuel never runs out. -/

/-- Structured record produced by the parser and consumed by the composer. -/
structure VocabularyEntry where
  pinyin : String
  english : String
  characterBreakdown : List String
  examples : List String
  usageNotes : List String
  memoryAids : List String
deriving DecidableEq, Repr

/-- Result of `extractTitleInfo`. -/
structure TitleInfo where
  pinyin : String
  english : String
deriving DecidableEq, Repr

/-- The character set matched by JavaScript `\s` (also the set stripped by
`String.prototype.trim` / `trimEnd`). -/
def jsWhitespace (c : Char) : Bool :=
  c = ' ' || c = '\t' || c = '\n' || c = '\r' || c = '\x0b' || c = '\x0c' ||
  c = ' ' || c = ' ' || (' ' ≤ c && c ≤ ' ') ||
  c = ' ' || c = ' ' || c = ' ' || c = ' ' ||
  c = '　' || c = '﻿'

/-- JavaScript `String.prototype.trim` on a list of characters. -/
def trimList (l : List Char) : List Char :=
  ((l.dropWhile jsWhitespace).reverse.dropWhile jsWhitespace).reverse

/-- JavaScript `String.prototype.trimEnd` on a list of characters. -/
def trimEndList (l : List Char) : List Char :=
  (l.reverse.dropWhile jsWhitespace).reverse

/-- JavaScript `String.prototype.trim` on a `String`. -/
def strTrim (s : String) : String := String.mk (trimList s.toList)

/-- Length of the leading whitespace run, JavaScript `line.match(/^\s*/)[0].length`. -/
def indentLen (l : List Char) : Nat := (l.takeWhile jsWhitespace).length

/-- JavaScript `str.split('\n')`: splits at every newline, keeping empty pieces. -/
def splitNL : List Char → List (List Char)
  | [] => [[]]
  | c :: rest =>
    if c = '\n' then [] :: splitNL rest
    else
      match splitNL rest with
      | [] => [[c]]
      | h :: t => (c :: h) :: t

/-- JavaScript `hay.indexOf(needle)`: index of the leftmost occurrence. -/
def findSubstr (needle : List Char) : List Char → Option Nat
  | [] => if needle.isPrefixOf ([] : List Char) then some 0 else none
  | c :: t =>
    if needle.isPrefixOf (c :: t) then some 0
    else (findSubstr needle t).map (· + 1)

/-- JavaScript `hay.indexOf(c, start)`: index of the first occurrence of the
character `c` at or after position `start`. -/
def findCharFrom (c : Char) (l : List Char) (start : Nat) : Option Nat :=
  ((l.drop start).findIdx? (· == c)).map (· + start)

/-- Syntax of the regular expressions used by the source. -/
inductive RE where
  | eps
  | lit (c : Char)
  | cls (p : Char → Bool)
  | seq (a b : RE)
  | alt (a b : RE)
  | plus (p : Char → Bool)
  | starL (p : Char → Bool)
  | opt (c : Char)
  | grp (i : Nat) (r : RE)
  | look (r : RE)
  | eolM
  | eos

/-- Capture list: group index paired with the captured characters. -/
abbrev Caps := List (Nat × List Char)

/-- Greedy backtracking for a one-or-more character class: try the longest
take first, then shorter ones down to length one. -/
def tryDrops (k : List Char → Option Caps) (s : List Char) : Nat → Option Caps
  | 0 => none
  | i + 1 => (k (s.drop (i + 1))).orElse (fun _ => tryDrops k s i)

/-- Backtracking matcher in continuation-passing style. `k` receives the
remaining input; the rule order matches JavaScript regex semantics. -/
def reMatchF : Nat → RE → List Char → (List Char → Option Caps) → Option Caps
  | 0, _, _, _ => none
  | fuel + 1, re, s, k =>
    match re with
    | .eps => k s
    | .lit c =>
      match s with
      | [] => none
      | c' :: rest => if c' = c then k rest else none
    | .cls p =>
      match s with
      | [] => none
      | c' :: rest => if p c' then k rest else none
    | .seq a b => reMatchF fuel a s (fun s2 => reMatchF fuel b s2 k)
    | .alt a b => (reMatchF fuel a s k).orElse (fun _ => reMatchF fuel b s k)
    | .plus p => tryDrops k s (s.takeWhile p).length
    | .starL p =>
      (k s).orElse (fun _ =>
        match s with
        | [] => none
        | c :: rest => if p c then reMatchF fuel (.starL p) rest k else none)
    | .opt c =>
      match s with
      | [] => k []
      | c' :: rest => if c' = c then (k rest).orElse (fun _ => k (c' :: rest)) else k (c' :: rest)
    | .grp i r =>
      reMatchF fuel r s (fun s2 => (k s2).map (fun caps => (i, s.take (s.length - s2.length)) :: caps))
    | .look r => if (reMatchF fuel r s (fun _ => some [])).isSome then k s else none
    | .eolM =>
      if s.isEmpty || s.head? == some '\n' || s.head? == some '\r' ||
         s.head? == some ' ' || s.head? == some ' ' then k s else none
    | .eos => if s.isEmpty then k s else none

/-- Structural size of a regular expression (every constructor counts 1). -/
def reSize : RE → Nat
  | .seq a b => reSize a + reSize b + 1
  | .alt a b => reSize a + reSize b + 1
  | .grp _ r => reSize r + 1
  | .look r => reSize r + 1
  | _ => 1

/-- Run the matcher with enough fuel: the backtracking search strictly
decreases `reSize re + input length` at every recursive call. -/
def reMatch (re : RE) (s : List Char) (k : List Char → Option Caps) : Option Caps :=
  reMatchF (reSize re + s.length + 1) re s k

/-- JavaScript `text.match(re)` without the `g` flag: attempt a match at each
position from left to right and return the captures of the leftmost match,
with the whole match recorded as group 0. -/
def reSearch (re : RE) (s : List Char) : Option Caps :=
  match reMatch (.grp 0 re) s (fun _ => some []) with
  | some caps => some caps
  | none =>
    match s with
    | [] => none
    | _ :: rest => reSearch re rest

/-- Captured characters of group `i` (empty when the group is absent). -/
def capGet (caps : Caps) (i : Nat) : List Char := (caps.lookup i).getD []

/-- Sequence of literal characters. -/
def strRE (s : String) : RE := s.toList.foldr (fun c r => RE.seq (RE.lit c) r) RE.eps

/-- Sequence of regular expressions. -/
def catRE (rs : List RE) : RE := rs.foldr RE.seq RE.eps

/-- Character class `[-–]` (hyphen-minus or en dash). -/
def dashCls : RE := RE.cls (fun c => c == '-' || c == '–')

/-- JavaScript `.`: any character except a line terminator. -/
def jsDot (c : Char) : Bool :=
  !(c == '\n' || c == '\r' || c == ' ' || c == ' ')

/-- Title shape 1: `# \*\*([^\*]+) \(([^\)]+)\)\*\* [-–] (.+)$` (flag `m`). -/
def titleRE1 : RE := catRE [strRE "# **", RE.grp 1 (RE.plus (· != '*')), strRE " (",
  RE.grp 2 (RE.plus (· != ')')), strRE ")** ", dashCls, strRE " ",
  RE.grp 3 (RE.plus jsDot), RE.eolM]

/-- Title shape 2: `# \*\*([^\*]+)\*\* \(([^\)]+)\) [-–] (.+)$` (flag `m`). -/
def titleRE2 : RE := catRE [strRE "# **", RE.grp 1 (RE.plus (· != '*')), strRE "** (",
  RE.grp 2 (RE.plus (· != ')')), strRE ") ", dashCls, strRE " ",
  RE.grp 3 (RE.plus jsDot), RE.eolM]

/-- Title shape 3: `# \*\*([^\(]+) \(([^\)]+)\) [-–] ([^\*]+)\*\*$` (flag `m`). -/
def titleRE3 : RE := catRE [strRE "# **", RE.grp 1 (RE.plus (· != '(')), strRE " (",
  RE.grp 2 (RE.plus (· != ')')), strRE ") ", dashCls, strRE " ",
  RE.grp 3 (RE.plus (· != '*')), strRE "**", RE.eolM]

/-- Title shape 4: `# \*\*([^\(]+)\(([^\)]+)\) [-–] ([^\*]+)\*\*$` (flag `m`). -/
def titleRE4 : RE := catRE [strRE "# **", RE.grp 1 (RE.plus (· != '(')), strRE "(",
  RE.grp 2 (RE.plus (· != ')')), strRE ") ", dashCls, strRE " ",
  RE.grp 3 (RE.plus (· != '*')), strRE "**", RE.eolM]

/-- Title shape 5: `# \*\*([^\(]+)\(([^\)]+)\)\*\* [-–] (.+)$` (flag `m`). -/
def titleRE5 : RE := catRE [strRE "# **", RE.grp 1 (RE.plus (· != '(')), strRE "(",
  RE.grp 2 (RE.plus (· != ')')), strRE ")** ", dashCls, strRE " ",
  RE.grp 3 (RE.plus jsDot), RE.eolM]

/-- Breakdown block: `\*\*Character Breakdown:?\*\*:?[\s\S]*?(?=\n\*\*Examples)`. -/
def breakdownRE : RE := catRE [strRE "**Character Breakdown", RE.opt ':', strRE "**",
  RE.opt ':', RE.starL (fun _ => true), RE.look (strRE "\n**Examples")]

/-- Examples block:
`\*\*Examples:?\*\*:?[\s\S]*?(?=\n\n\*\*(?:Usage Notes|Memory Aids)|\n\n$)`. -/
def examplesRE : RE := catRE [strRE "**Examples", RE.opt ':', strRE "**", RE.opt ':',
  RE.starL (fun _ => true),
  RE.look (RE.alt (catRE [strRE "\n\n**", RE.alt (strRE "Usage Notes") (strRE "Memory Aids")])
                  (catRE [strRE "\n\n", RE.eos]))]

/-- Usage notes block: `\*\*Usage Notes:?\*\*:?[\s\S]*?(?=\n+\*\*Memory Aids|\n\n$)`. -/
def usageRE : RE := catRE [strRE "**Usage Notes", RE.opt ':', strRE "**", RE.opt ':',
  RE.starL (fun _ => true),
  RE.look (RE.alt (catRE [RE.plus (· == '\n'), strRE "**Memory Aids"])
                  (catRE [strRE "\n\n", RE.eos]))]

/-- Memory aids block: `\*\*Memory Aids:?\*\*:?[\s\S]*?$` (no `m` flag). -/
def memoryRE : RE := catRE [strRE "**Memory Aids", RE.opt ':', strRE "**", RE.opt ':',
  RE.starL (fun _ => true), RE.eos]

/-- Character reference pattern: `\*\*([^ ]+) \(([^)]+)\)\*\*`. -/
def charRefRE : RE := catRE [strRE "**", RE.grp 1 (RE.plus (· != ' ')), strRE " (",
  RE.grp 2 (RE.plus (· != ')')), strRE ")**"]

/-- Build the result of `extractTitleInfo` from the first successful title
match: group 2 is the pinyin (returned verbatim), group 3 trimmed is the
english; no match yields empty strings. -/
def titleFromMatch : Option Caps → TitleInfo
  | some caps =>
    { pinyin := String.mk (capGet caps 2), english := String.mk (trimList (capGet caps 3)) }
  | none => { pinyin := "", english := "" }

/-- Embedding of `extractTitleInfo`: try the five title shapes in order and
use the first that matches. -/
def extractTitleInfo (text : String) : TitleInfo :=
  let s := text.toList
  titleFromMatch (((((reSearch titleRE1 s).orElse (fun _ => reSearch titleRE2 s)).orElse
      (fun _ => reSearch titleRE3 s)).orElse
      (fun _ => reSearch titleRE4 s)).orElse
      (fun _ => reSearch titleRE5 s))

/-- The header-line test `line.match(/^\*\*Character Breakdown/)`. -/
def isBreakdownHeaderLine (l : List Char) : Bool :=
  ("**Character Breakdown".toList).isPrefixOf l

/-- The accumulation loop of `extractCharacterBreakdown`: header and blank
lines are skipped, a non-indented line starts a new entry, an indented line
is appended to the current buffer, and the final buffer is always pushed. -/
def breakdownLoop : List (List Char) → List (List Char) → List (List Char)
  | [], buffer => [List.intercalate ['\n'] buffer]
  | line :: rest, buffer =>
    if isBreakdownHeaderLine line then breakdownLoop rest buffer
    else if trimList line = [] then breakdownLoop rest buffer
    else if indentLen line = 0 then
      if buffer ≠ [] then (List.intercalate ['\n'] buffer) :: breakdownLoop rest [line]
      else breakdownLoop rest [line]
    else breakdownLoop rest (buffer ++ [line])

/-- Embedding of `extractCharacterBreakdown`. -/
def extractCharacterBreakdown (text : String) : List String :=
  match reSearch breakdownRE text.toList with
  | none => []
  | some caps =>
    let lines := (splitNL (capGet caps 0)).map trimEndList
    (breakdownLoop lines []).map String.mk

/-- Embedding of `extractExamples`. -/
def extractExamples (text : String) : List String :=
  match reSearch examplesRE text.toList with
  | none => []
  | some caps =>
    ((splitNL (capGet caps 0)).filter
        (fun l => ("- ".toList).isPrefixOf (trimList l))).map
      (fun l => String.mk (trimList l))

/-- Shared filtering of `extractUsageNotes` / `extractMemoryAids` (the two
source functions are verbatim copies modulo the header string `needle`):
keep the lines of the block that are non-blank and do not contain the
header substring, trim them, and drop any that became empty. -/
def notesBase (needle block : List Char) : List (List Char) :=
  (((splitNL block).filter (fun l =>
      !(trimList l).isEmpty && !(findSubstr needle l).isSome)).map
    trimList).filter (fun l => !l.isEmpty)

/-- The trimmed first line of the block (JavaScript `lines[0].trim()`). -/
def notesFirstLine (block : List Char) : List Char :=
  trimList ((splitNL block).headD [])

/-- Shared body of `extractUsageNotes` / `extractMemoryAids`: the base
filtering plus the special case where the header and the first note share a
line, in which case the text after the first space following the header is
trimmed and, when non-empty, prepended. -/
def notesFromBlock (needle block : List Char) : List (List Char) :=
  match findSubstr needle (notesFirstLine block) with
  | none => notesBase needle block
  | some idx =>
    match findCharFrom ' ' (notesFirstLine block) (idx + needle.length) with
    | none => notesBase needle block
    | some j =>
      if trimList ((notesFirstLine block).drop j) ≠ [] then
        trimList ((notesFirstLine block).drop j) :: notesBase needle block
      else notesBase needle block

/-- Embedding of `extractUsageNotes`, including the same-line special case. -/
def extractUsageNotes (text : String) : List String :=
  match reSearch usageRE text.toList with
  | none => []
  | some caps => (notesFromBlock ("Usage Notes".toList) (capGet caps 0)).map String.mk

/-- Embedding of `extractMemoryAids` (same algorithm as the usage notes,
with the `Memory Aids` header and a block running to end of input). -/
def extractMemoryAids (text : String) : List String :=
  match reSearch memoryRE text.toList with
  | none => []
  | some caps => (notesFromBlock ("Memory Aids".toList) (capGet caps 0)).map String.mk

/-- The per-entry parse performed inside `processFlashcardsData`: the five
extractors assembled into one `VocabularyEntry`. Total by construction. -/
def parseFlashcard (content : String) : VocabularyEntry :=
  { pinyin := (extractTitleInfo content).pinyin
    english := (extractTitleInfo content).english
    characterBreakdown := extractCharacterBreakdown content
    examples := extractExamples content
    usageNotes := extractUsageNotes content
    memoryAids := extractMemoryAids content }

/-- Embedding of `convertToMarkdown` (compress_structured.js). -/
def convertToMarkdown (word : String) (data : VocabularyEntry) : String :=
  let title := "# **" ++ word ++ " (" ++ data.pinyin ++ ") - " ++ data.english ++ "**\n\n"
  let breakdownSection :=
    if data.characterBreakdown.length > 0 then
      "**Character Breakdown**:  \n" ++ String.intercalate "  \n" data.characterBreakdown ++ "\n\n"
    else ""
  let examplesSection :=
    if data.examples.length > 0 then
      "**Examples**:  \n" ++ String.intercalate "  \n" data.examples ++ "\n\n"
    else ""
  let usageSection :=
    if data.usageNotes.length > 0 then
      "**Usage Notes**:  \n" ++ String.intercalate "  \n" data.usageNotes ++ "\n\n"
    else ""
  let memorySection :=
    if data.memoryAids.length > 0 then
      "**Memory Aids**:  \n" ++ String.intercalate "  \n" data.memoryAids
    else ""
  title ++ breakdownSection ++ examplesSection ++ usageSection ++ memorySection

/-- One step of `updateCharacterReferences`: match the description against
the character reference pattern and insert group 1 as key only when absent
(the stored descriptions are never empty, so JavaScript truthiness agrees
with key presence). -/
def refStep (refs : List (String × String)) (description : String) : List (String × String) :=
  match reSearch charRefRE description.toList with
  | some caps =>
    let ch := String.mk (capGet caps 1)
    if (refs.lookup ch).isNone then refs ++ [(ch, description)] else refs
  | none => refs

/-- Embedding of `updateCharacterReferences`: the reference dictionary is an
association list updated by `refStep` for each breakdown description. -/
def updateCharacterReferences (word : String) (characterBreakdown : List String)
    (references : List (String × String)) : List (String × String) :=
  characterBreakdown.foldl refStep references

/-- JavaScript dictionary values as they occur in the raw flashcards file. -/
inductive JsVal where
  | vnull
  | vundef
  | vnum (n : Int)
  | vstr (s : String)
deriving DecidableEq, Repr

/-- One step of `processFlashcardsData`: skip the entry when its value is
not a string or is falsy (the empty string); otherwise parse it, update the
character references, and append the structured entry. -/
def entryStep (acc : List (String × String) × List (String × VocabularyEntry))
    (wv : String × JsVal) : List (String × String) × List (String × VocabularyEntry) :=
  match wv.2 with
  | JsVal.vstr content =>
    if content = "" then acc
    else
      let entry := parseFlashcard content
      let refs := updateCharacterReferences wv.1 entry.characterBreakdown acc.1
      (refs, acc.2 ++ [(wv.1, entry)])
  | _ => acc

/-- Embedding of `processFlashcardsData`: fold over the entries in iteration
order; only the structured output is returned (the character references are
still built but not included). -/
def processFlashcardsData (flashcardsData : List (String × JsVal)) :
    List (String × VocabularyEntry) :=
  (flashcardsData.foldl entryStep
    (([], []) : List (String × String) × List (String × VocabularyEntry))).2

/-- The anchor markup produced by `linkIfExists` for a dictionary word. -/
def anchorFor (word : List Char) : List Char :=
  ("<a href=\"https://github.com/anvaka/lang-land-data/blob/main/hsk/v1/cards/".toList)
    ++ word ++ (".md\" class=\"word-link\" data-word=\"".toList)
    ++ word ++ ("\">".toList) ++ word ++ ("</a>".toList)

/-- Embedding of `linkIfExists`: the graph existence oracle is a list of
known words; an empty word yields the empty string. -/
def linkIfExists (word : List Char) (dict : List (List Char)) : List Char :=
  if word = [] then []
  else if word ∈ dict then anchorFor word
  else word

/-- The prefix scan of `processChinesePhrase`: candidate lengths from `k`
down to 1, returning the first (longest) length whose take is in the
dictionary. -/
def findLongestIn (phrase : List Char) (dict : List (List Char)) : Nat → Option Nat
  | 0 => none
  | l + 1 => if phrase.take (l + 1) ∈ dict then some (l + 1) else findLongestIn phrase dict l

/-- Fuelled body of `processChinesePhrase`; the fuel strictly dominates the
phrase length, which decreases at every recursive call. -/
def processCPF (fuel : Nat) (phrase : List Char) (dict : List (List Char)) : List Char :=
  match fuel with
  | 0 => []
  | fuel + 1 =>
    if phrase.length ≤ 1 then linkIfExists phrase dict
    else if phrase ∈ dict then linkIfExists phrase dict
    else
      match findLongestIn phrase dict (phrase.length - 1) with
      | some l => linkIfExists (phrase.take l) dict ++ processCPF fuel (phrase.drop l) dict
      | none => linkIfExists (phrase.take 1) dict ++ processCPF fuel (phrase.drop 1) dict

/-- Embedding of `processChinesePhrase` (turnChineseWordsIntoLinks.js):
greedy longest-match segmentation of a CJK run. -/
def processChinesePhrase (phrase : List Char) (dict : List (List Char)) : List Char :=
  processCPF (phrase.length + 1) phrase dict

/-! Auxiliary lemmas about trimming. -/

theorem dropWhile_idem (p : Char → Bool) :
    ∀ l : List Char, (l.dropWhile p).dropWhile p = l.dropWhile p
  | [] => rfl
  | c :: l => by
    by_cases h : p c
    · simp [List.dropWhile_cons, h, dropWhile_idem p l]
    · simp [List.dropWhile_cons, h]

theorem exists_append_dropWhile (p : Char → Bool) :
    ∀ l : List Char, ∃ u, l = u ++ l.dropWhile p
  | [] => ⟨[], rfl⟩
  | c :: l => by
    by_cases h : p c
    · obtain ⟨u, hu⟩ := exists_append_dropWhile p l
      refine ⟨c :: u, ?_⟩
      simp [List.dropWhile_cons, h]
      exact hu
    · exact ⟨[], by simp [List.dropWhile_cons, h]⟩

theorem trimList_idem (l : List Char) : trimList (trimList l) = trimList l := by
  unfold trimList
  have hmm : (l.dropWhile jsWhitespace).dropWhile jsWhitespace = l.dropWhile jsWhitespace :=
    dropWhile_idem jsWhitespace l
  set m := l.dropWhile jsWhitespace with hm
  set t := (m.reverse.dropWhile jsWhitespace).reverse with ht
  have h1 : t.reverse.dropWhile jsWhitespace = t.reverse := by
    rw [ht, List.reverse_reverse]
    exact dropWhile_idem jsWhitespace m.reverse
  have h2 : t.dropWhile jsWhitespace = t := by
    obtain ⟨u, hu⟩ := exists_append_dropWhile jsWhitespace m.reverse
    have hmt : m = t ++ u.reverse := by
      have h3 := congrArg List.reverse hu
      rw [List.reverse_reverse] at h3
      rw [h3, List.reverse_append, ht]
    cases htn : t with
    | nil => rfl
    | cons c t' =>
      have hc : jsWhitespace c = false := by
        by_contra hcc
        have hcc' : jsWhitespace c = true := by
          cases hjw : jsWhitespace c
          · exact absurd hjw hcc
          · rfl
        have h4 : m.dropWhile jsWhitespace = m := hmm
        rw [hmt, htn] at h4
        have h5 : ((c :: t') ++ u.reverse).dropWhile jsWhitespace
            = (t' ++ u.reverse).dropWhile jsWhitespace := by
          simp [List.dropWhile_cons, hcc']
        rw [h5] at h4
        have h6 : ((t' ++ u.reverse).dropWhile jsWhitespace).length ≤ (t' ++ u.reverse).length :=
          (List.dropWhile_suffix _).length_le
        rw [h4] at h6
        simp at h6
      simp [List.dropWhile_cons, hc]
  rw [h2, h1, List.reverse_reverse]

theorem titleFromMatch_english_trimmed (o : Option Caps) :
    strTrim (titleFromMatch o).english = (titleFromMatch o).english := by
  cases o with
  | none => rfl
  | some caps =>
    show String.mk (trimList (trimList (capGet caps 3))) = String.mk (trimList (capGet caps 3))
    rw [trimList_idem]

/-- C3: title shape coverage. The extractor, trying the five documented title
shapes in the documented order and keeping the first match, returns the
documented (pinyin, english) pair on a literal example of each of the five
shapes, including the two examples given in the claim. -/
theorem c3_title_shapes :
    extractTitleInfo "# **征求 (zhēng qiú)** – to seek; to solicit; to ask for"
      = ⟨"zhēng qiú", "to seek; to solicit; to ask for"⟩
    ∧ extractTitleInfo "# **亲爱** (qīn'ài) - Dear; beloved" = ⟨"qīn'ài", "Dear; beloved"⟩
    ∧ extractTitleInfo "# **爱 (ài) - Love**" = ⟨"ài", "Love"⟩
    ∧ extractTitleInfo "# **却(què) - but; yet; however**" = ⟨"què", "but; yet; however"⟩
    ∧ extractTitleInfo "# **写(xiě)** - to write" = ⟨"xiě", "to write"⟩ := by
  refine ⟨?_, ?_, ?_, ?_, ?_⟩ <;> decide

/-- C4 counterexample: the claim says the returned pinyin carries no leading
or trailing whitespace for every title line matching one of the five shapes,
but on the matching title `# **爱 ( ài )** - Love` the code returns the
parenthesized group verbatim, with its surrounding spaces. -/
theorem c4_pinyin_counterexample :
    (extractTitleInfo "# **爱 ( ài )** - Love").pinyin = " ài "
    ∧ strTrim " ài " ≠ " ài " := by
  constructor <;> decide

/-- C4 (amended): for every input, the english (gloss) returned by
`extractTitleInfo` has no leading or trailing whitespace (it is a fixed point
of trimming), while the pinyin is returned verbatim as the captured
parenthesized group and may carry surrounding whitespace, as the concrete
matching title shows. -/
theorem c4_title_trimming :
    (∀ text : String,
      strTrim (extractTitleInfo text).english = (extractTitleInfo text).english)
    ∧ extractTitleInfo "# **爱 ( ài )** - Love" = ⟨" ài ", "Love"⟩ := by
  constructor
  · intro text
    exact titleFromMatch_english_trimmed _
  · decide

/-- C7: the parser is a total function into VocabularyEntry (it cannot
throw), and unmatched parts default to empty values: the title-only input
yields the documented record with empty sequences, and the empty string and
a malformed document yield the all-empty record. -/
theorem c7_parser_totality_defaults :
    parseFlashcard "# **好 (hǎo)** - Good" = ⟨"hǎo", "Good", [], [], [], []⟩
    ∧ parseFlashcard "" = ⟨"", "", [], [], [], []⟩
    ∧ parseFlashcard "# Incomplete title\n    Some random text without proper structure"
      = ⟨"", "", [], [], [], []⟩ := by
  refine ⟨?_, ?_, ?_⟩ <;> decide

/-! Lemmas about the notes extraction and non-empty strings. -/

theorem string_mk_ne_empty {l : List Char} (h : l ≠ []) : String.mk l ≠ "" := by
  intro hcon
  exact h (congrArg String.toList hcon)

theorem mem_notesBase {needle block l : List Char} (h : l ∈ notesBase needle block) :
    l ≠ [] := by
  unfold notesBase at h
  have h2 := (List.mem_filter.mp h).2
  intro hl
  rw [hl] at h2
  simp at h2

theorem mem_notesFromBlock {needle block l : List Char}
    (h : l ∈ notesFromBlock needle block) : l ≠ [] := by
  unfold notesFromBlock at h
  split at h
  · exact mem_notesBase h
  · split at h
    · exact mem_notesBase h
    · split at h
      next hcond =>
        rcases List.mem_cons.mp h with h1 | h1
        · rw [h1]; exact hcond
        · exact mem_notesBase h1
      next => exact mem_notesBase h

/-- C1 counterexample: the round-trip law fails as stated. For the entry
with non-empty pinyin and english whose characterBreakdown is non-empty but
whose examples list is empty, parsing the composed markdown does not
reproduce the entry (the parser's breakdown regex requires a following
Examples header, so the breakdown is lost). -/
theorem c1_roundtrip_counterexample :
    parseFlashcard (convertToMarkdown "爱" ⟨"ài", "Love", ["- b."], [], [], []⟩)
      ≠ ⟨"ài", "Love", ["- b."], [], [], []⟩ := by
  decide

/-- C1 (amended): the round-trip law `Parse(Compose(headword, e)) = e` does
not hold for every entry with non-empty pinyin and english; it holds for
well-formed entries whose four section lists are all non-empty and whose
elements are single trimmed bullet-dash lines, as proved here on two such
concrete entries (field-by-field equality, including array order). -/
theorem c1_roundtrip_wellformed :
    parseFlashcard (convertToMarkdown "爱"
        ⟨"ài", "Love", ["- **爱 (ài)**: love."], ["- e1.", "- e2."],
          ["- u1.", "- u2."], ["- m1.", "- m2."]⟩)
      = ⟨"ài", "Love", ["- **爱 (ài)**: love."], ["- e1.", "- e2."],
          ["- u1.", "- u2."], ["- m1.", "- m2."]⟩
    ∧ parseFlashcard (convertToMarkdown "火柴"
        ⟨"huǒ chái", "Match (for fire)", ["- **火 (huǒ)**: fire.", "- **柴 (chái)**: wood."],
          ["- ex one.", "- ex two."], ["- note one."], ["- aid one."]⟩)
      = ⟨"huǒ chái", "Match (for fire)", ["- **火 (huǒ)**: fire.", "- **柴 (chái)**: wood."],
          ["- ex one.", "- ex two."], ["- note one."], ["- aid one."]⟩ := by
  constructor <;> decide

/-- C5 counterexample: when the Examples section is the last content of the
string and the string does not end with a double newline, the bullet lines
are NOT returned (the regex only stops at a `\n\n` before a following header
or at a literal terminal `\n\n`), contradicting the claim. -/
theorem c5_examples_counterexample :
    extractExamples "**Examples**:\n- a" = []
    ∧ extractExamples "**Examples**:\n- a" ≠ ["- a"] := by
  constructor <;> decide

/-- C5 (amended): every element returned by `extractExamples` is a trimmed
line beginning with a bullet dash, taken from the block that starts at the
Examples header and ends at the next double-newline-prefixed Usage Notes or
Memory Aids header or at a double newline at the end of the string; when the
Examples section is the last content, its bullets are returned only if the
string ends with a double newline, and are dropped otherwise. -/
theorem c5_examples_extraction :
    (∀ (t s : String), s ∈ extractExamples t →
      strTrim s = s ∧ ("- ".toList).isPrefixOf s.toList = true)
    ∧ extractExamples "**Examples**:\n- e1.\nx\n- e2.\n\n**Usage Notes**: u"
        = ["- e1.", "- e2."]
    ∧ extractExamples "**Examples**:\n- a\n\n" = ["- a"]
    ∧ extractExamples "**Examples**:\n- a" = [] := by
  refine ⟨?_, by decide, by decide, by decide⟩
  intro t s hs
  unfold extractExamples at hs
  split at hs
  · exact absurd hs (List.not_mem_nil s)
  · rcases List.mem_map.mp hs with ⟨l, hl, rfl⟩
    have h2 := (List.mem_filter.mp hl).2
    constructor
    · show String.mk (trimList (trimList l)) = String.mk (trimList l)
      rw [trimList_idem]
    · exact h2

theorem c5_examples_witness :
    strTrim "- e1." = "- e1." ∧ ("- ".toList).isPrefixOf ("- e1.".toList) = true :=
  c5_examples_extraction.1 "**Examples**:\n- e1.\nx\n- e2.\n\n**Usage Notes**: u" "- e1."
    (by decide)

/-- C6 counterexample: a non-blank, non-header note line is dropped when it
contains the substring `Usage Notes`, contradicting the claim that a
non-header note line is never dropped. -/
theorem c6_usage_counterexample :
    extractUsageNotes "**Usage Notes**:\n- see Usage Notes appendix\n\n**Memory Aids**: m" = []
    ∧ extractUsageNotes "**Usage Notes**:\n- see Usage Notes appendix\n\n**Memory Aids**: m"
      ≠ ["- see Usage Notes appendix"] := by
  constructor <;> decide

/-- C6 (amended): within the located Usage Notes block, every non-blank line
that does not contain the substring `Usage Notes` becomes one entry of the
result (trimmed, with leading bullet dashes retained as part of the entry),
and every returned entry is non-empty; but any line containing the substring
`Usage Notes` is dropped, even when it is not the header line. -/
theorem c6_usage_notes_extraction :
    (∀ (t s : String), s ∈ extractUsageNotes t → s ≠ "")
    ∧ extractUsageNotes "**Usage Notes**:\n- a\n- b\n\n**Memory Aids**: m" = ["- a", "- b"]
    ∧ extractUsageNotes "**Usage Notes**:\n- see Usage Notes appendix\n\n**Memory Aids**: m"
      = [] := by
  refine ⟨?_, by decide, by decide⟩
  intro t s hs
  unfold extractUsageNotes at hs
  split at hs
  · exact absurd hs (List.not_mem_nil s)
  · rcases List.mem_map.mp hs with ⟨l, hl, rfl⟩
    exact string_mk_ne_empty (mem_notesFromBlock hl)

theorem c6_usage_notes_witness : "- a" ≠ "" :=
  c6_usage_notes_extraction.1 "**Usage Notes**:\n- a\n- b\n\n**Memory Aids**: m" "- a"
    (by decide)

/-! Lemmas about the breakdown grouping loop. -/

theorem indentLen_pos_not_header {l : List Char} (h : indentLen l ≠ 0) :
    isBreakdownHeaderLine l = false := by
  cases l with
  | nil => exact absurd rfl h
  | cons c rest =>
    have hc : jsWhitespace c = true := by
      cases hjw : jsWhitespace c with
      | true => rfl
      | false =>
        exfalso
        apply h
        simp [indentLen, List.takeWhile_cons, hjw]
    have hcs : c ≠ '*' := by
      intro he
      rw [he] at hc
      exact absurd hc (by decide)
    have hb : ('*' == c) = false := beq_eq_false_iff_ne.mpr (Ne.symm hcs)
    show (("**Character Breakdown".toList).isPrefixOf (c :: rest)) = false
    have hsplit : ("**Character Breakdown".toList) = '*' :: ("*Character Breakdown".toList) := by
      decide
    rw [hsplit]
    simp [List.isPrefixOf, hb]

theorem breakdownLoop_all_indented :
    ∀ (rest buffer : List (List Char)),
    (∀ l ∈ rest, indentLen l ≠ 0 ∧ trimList l ≠ []) →
    breakdownLoop rest buffer = [List.intercalate ['\n'] (buffer ++ rest)]
  | [], buffer, _ => by simp [breakdownLoop]
  | l :: rest, buffer, h => by
    obtain ⟨h1, h2⟩ := h l (List.mem_cons_self l rest)
    have hh : isBreakdownHeaderLine l = false := indentLen_pos_not_header h1
    have ih := breakdownLoop_all_indented rest (buffer ++ [l])
      (fun x hx => h x (List.mem_cons_of_mem _ hx))
    simp only [breakdownLoop, hh, Bool.false_eq_true, if_false, if_neg h2, if_neg h1]
    rw [ih]
    simp

/-- C8: character breakdown entry grouping. Within the breakdown block a
non-indented line starts a new entry and each immediately following line
with nonzero leading whitespace is appended to the same entry, joined by a
line break; concretely, a block whose indented continuation lines sit under
one unindented bullet yields one array entry holding all those lines (with
trailing whitespace stripped per line and leading indentation preserved),
as both the general grouping lemma and the concrete document show. -/
theorem c8_breakdown_grouping :
    (∀ (first : List Char) (rest : List (List Char)),
      isBreakdownHeaderLine first = false → indentLen first = 0 → trimList first ≠ [] →
      (∀ l ∈ rest, indentLen l ≠ 0 ∧ trimList l ≠ []) →
      breakdownLoop (first :: rest) [] = [List.intercalate ['\n'] (first :: rest)])
    ∧ extractCharacterBreakdown
        "# **T (t)** - x\n\n**Character Breakdown**:  \n- **A (a)**: one.  \n  - sub one  \n  - sub two\n- **B (b)**: two.\n\n**Examples**:  \n- e1\n"
      = ["- **A (a)**: one.\n  - sub one\n  - sub two", "- **B (b)**: two."] := by
  constructor
  · intro first rest hh h0 ht hrest
    simp only [breakdownLoop, hh, Bool.false_eq_true, if_false, if_neg ht, h0, if_pos rfl]
    simp only [ne_eq, not_true_eq_false, if_false]
    rw [breakdownLoop_all_indented rest [first] hrest]
    rfl
  · decide

theorem c8_breakdown_grouping_witness :
    breakdownLoop ["- a".toList, "  b".toList, "  c".toList] []
      = [List.intercalate ['\n'] ["- a".toList, "  b".toList, "  c".toList]] :=
  c8_breakdown_grouping.1 ("- a".toList) ["  b".toList, "  c".toList]
    (by decide) (by decide) (by decide) (by decide)

/-! Lemmas about the greedy segmenter. -/

theorem processCPF_succ (fuel : Nat) (phrase : List Char) (dict : List (List Char)) :
    processCPF (fuel + 1) phrase dict =
      if phrase.length ≤ 1 then linkIfExists phrase dict
      else if phrase ∈ dict then linkIfExists phrase dict
      else
        match findLongestIn phrase dict (phrase.length - 1) with
        | some l => linkIfExists (phrase.take l) dict ++ processCPF fuel (phrase.drop l) dict
        | none => linkIfExists (phrase.take 1) dict ++ processCPF fuel (phrase.drop 1) dict := by
  rfl

theorem findLongestIn_bounds (phrase : List Char) (dict : List (List Char)) (l : Nat) :
    ∀ k, findLongestIn phrase dict k = some l → 1 ≤ l ∧ l ≤ k
  | 0, h => by simp [findLongestIn] at h
  | k + 1, h => by
    rw [findLongestIn] at h
    split at h
    · cases h
      omega
    · have := findLongestIn_bounds phrase dict l k h
      omega

theorem findLongestIn_spec (phrase : List Char) (dict : List (List Char)) (l : Nat) :
    ∀ k, phrase.take l ∈ dict → 1 ≤ l → l ≤ k →
    (∀ m, l < m → m ≤ k → phrase.take m ∉ dict) →
    findLongestIn phrase dict k = some l
  | 0, _, h1, h2, _ => by omega
  | k + 1, hmem, h1, h2, hmax => by
    by_cases he : l = k + 1
    · subst he
      simp [findLongestIn, hmem]
    · have hnot : phrase.take (k + 1) ∉ dict := hmax (k + 1) (by omega) (le_refl _)
      have ih := findLongestIn_spec phrase dict l k hmem h1 (by omega)
        (fun m hm1 hm2 => hmax m hm1 (by omega))
      simp [findLongestIn, hnot, ih]

theorem processCPF_fuel_eq (dict : List (List Char)) :
    ∀ (fuel : Nat) (phrase : List Char), phrase.length < fuel →
    processCPF fuel phrase dict = processChinesePhrase phrase dict := by
  intro fuel
  induction fuel using Nat.strong_induction_on with
  | _ fuel ih =>
    intro phrase hlen
    cases fuel with
    | zero => exact absurd hlen (Nat.not_lt_zero _)
    | succ fuel =>
      show processCPF (fuel + 1) phrase dict = processCPF (phrase.length + 1) phrase dict
      rw [processCPF_succ, processCPF_succ]
      by_cases hle : phrase.length ≤ 1
      · simp [hle]
      · simp only [if_neg hle]
        by_cases hmem : phrase ∈ dict
        · simp [hmem]
        · simp only [if_neg hmem]
          have h2 : 2 ≤ phrase.length := by omega
          cases hfl : findLongestIn phrase dict (phrase.length - 1) with
          | some l =>
            have hb := findLongestIn_bounds phrase dict l (phrase.length - 1) hfl
            have hdl : (phrase.drop l).length = phrase.length - l := by
              simp [List.length_drop]
            have e1 : processCPF fuel (phrase.drop l) dict
                = processChinesePhrase (phrase.drop l) dict := by
              apply ih fuel (Nat.lt_succ_self fuel)
              omega
            have e2 : processCPF phrase.length (phrase.drop l) dict
                = processChinesePhrase (phrase.drop l) dict := by
              apply ih phrase.length hlen
              omega
            dsimp only
            rw [e1, e2]
          | none =>
            have hdl : (phrase.drop 1).length = phrase.length - 1 := by
              simp [List.length_drop]
            have e1 : processCPF fuel (phrase.drop 1) dict
                = processChinesePhrase (phrase.drop 1) dict := by
              apply ih fuel (Nat.lt_succ_self fuel)
              omega
            have e2 : processCPF phrase.length (phrase.drop 1) dict
                = processChinesePhrase (phrase.drop 1) dict := by
              apply ih phrase.length hlen
              omega
            dsimp only
            rw [e1, e2]

theorem processChinesePhrase_whole (dict : List (List Char)) (p : List Char)
    (h2 : 2 ≤ p.length) (hmem : p ∈ dict) :
    processChinesePhrase p dict = anchorFor p := by
  show processCPF (p.length + 1) p dict = anchorFor p
  rw [processCPF_succ, if_neg (by omega), if_pos hmem]
  unfold linkIfExists
  rw [if_neg (by intro h; rw [h] at h2; simp at h2), if_pos hmem]

theorem processChinesePhrase_greedy_step (dict : List (List Char)) (p : List Char) (l : Nat)
    (hnd : p ∉ dict) (h1 : 1 ≤ l) (hlt : l < p.length) (hmem : p.take l ∈ dict)
    (hmax : ∀ m, l < m → m < p.length → p.take m ∉ dict) :
    processChinesePhrase p dict
      = anchorFor (p.take l) ++ processChinesePhrase (p.drop l) dict := by
  have h2 : 2 ≤ p.length := by omega
  show processCPF (p.length + 1) p dict = _
  rw [processCPF_succ, if_neg (by omega), if_neg hnd]
  have hfl : findLongestIn p dict (p.length - 1) = some l :=
    findLongestIn_spec p dict l (p.length - 1) hmem h1 (by omega)
      (fun m hm1 hm2 => hmax m hm1 (by omega))
  simp only [hfl]
  have htake : p.take l ≠ [] := by
    intro h
    have hlen := congrArg List.length h
    rw [List.length_take] at hlen
    simp only [List.length_nil] at hlen
    omega
  have hlink : linkIfExists (p.take l) dict = anchorFor (p.take l) := by
    unfold linkIfExists
    rw [if_neg htake, if_pos hmem]
  rw [hlink]
  congr 1
  apply processCPF_fuel_eq
  simp [List.length_drop]
  omega

/-- C2: segmenter greedy longest match. In general, a run that is itself in
the dictionary is linked whole, and otherwise the longest
dictionary-recognized proper prefix is linked and the remainder is processed
recursively; in particular, with dictionary containing 火柴, 火 and 柴 the
input 火柴 is linked as one token, and with only 火 and 柴 it is linked as
the two separate tokens 火 and 柴. -/
theorem c2_segmenter_greedy :
    (∀ (dict : List (List Char)) (p : List Char), 2 ≤ p.length → p ∈ dict →
      processChinesePhrase p dict = anchorFor p)
    ∧ (∀ (dict : List (List Char)) (p : List Char) (l : Nat),
        p ∉ dict → 1 ≤ l → l < p.length → p.take l ∈ dict →
        (∀ m, l < m → m < p.length → p.take m ∉ dict) →
        processChinesePhrase p dict
          = anchorFor (p.take l) ++ processChinesePhrase (p.drop l) dict)
    ∧ processChinesePhrase ("火柴".toList) ["火柴".toList, "火".toList, "柴".toList]
        = anchorFor ("火柴".toList)
    ∧ processChinesePhrase ("火柴".toList) ["火".toList, "柴".toList]
        = anchorFor ("火".toList) ++ anchorFor ("柴".toList) :=
  ⟨processChinesePhrase_whole, processChinesePhrase_greedy_step, by decide, by decide⟩

theorem c2_segmenter_greedy_witness :
    processChinesePhrase ("火柴".toList) ["火".toList, "柴".toList]
      = anchorFor (("火柴".toList).take 1)
        ++ processChinesePhrase (("火柴".toList).drop 1) ["火".toList, "柴".toList] :=
  c2_segmenter_greedy.2.1 ["火".toList, "柴".toList] ("火柴".toList) 1
    (by decide) (by decide) (by decide) (by decide)
    (fun m hm1 hm2 => absurd (lt_of_lt_of_le hm1 (Nat.le_of_lt_succ hm2)) (lt_irrefl 1))

/-! Lemmas about the character reference index and batch processing. -/

theorem lookup_append_left {c v : String} :
    ∀ (refs l2 : List (String × String)), refs.lookup c = some v →
    (refs ++ l2).lookup c = some v
  | [], _, h => by simp [List.lookup] at h
  | (a, b) :: t, l2, h => by
    cases hca : (c == a) with
    | true =>
      simp only [List.lookup, hca] at h ⊢
      exact h
    | false =>
      simp only [List.lookup, hca] at h ⊢
      exact lookup_append_left t l2 h

theorem refStep_preserves {c v : String} (refs : List (String × String)) (d : String)
    (h : refs.lookup c = some v) : (refStep refs d).lookup c = some v := by
  unfold refStep
  split
  · dsimp only
    split
    · exact lookup_append_left refs _ h
    · exact h
  · exact h

theorem updateCharacterReferences_preserves :
    ∀ (bd : List String) (refs : List (String × String)) (w c v : String),
    refs.lookup c = some v → (updateCharacterReferences w bd refs).lookup c = some v
  | [], _, _, _, _, h => h
  | d :: bd, refs, w, c, v, h => by
    show ((d :: bd).foldl refStep refs).lookup c = some v
    rw [List.foldl_cons]
    exact updateCharacterReferences_preserves bd (refStep refs d) w c v
      (refStep_preserves refs d h)

/-- C9: character reference index first-writer-wins. Once a character key is
present in the reference index, no later `updateCharacterReferences` call
changes its stored value; concretely, with two entries whose breakdown
descriptions both define 火 with different text, the index keeps the text of
the entry processed first in iteration order. -/
theorem c9_first_writer_wins :
    (∀ (w : String) (bd : List String) (refs : List (String × String)) (c v : String),
      refs.lookup c = some v → (updateCharacterReferences w bd refs).lookup c = some v)
    ∧ (updateCharacterReferences "柴" ["- **火 (huǒ)**: second."]
        (updateCharacterReferences "火" ["- **火 (huǒ)**: first."] [])).lookup "火"
      = some "- **火 (huǒ)**: first." :=
  ⟨fun w bd refs c v h => updateCharacterReferences_preserves bd refs w c v h, by decide⟩

theorem c9_first_writer_wins_witness :
    (updateCharacterReferences "w" ["- **火 (huǒ)**: other."] [("火", "keep")]).lookup "火"
      = some "keep" :=
  c9_first_writer_wins.1 "w" ["- **火 (huǒ)**: other."] [("火", "keep")] "火" "keep"
    (by decide)

/-- The per-entry keep-or-skip decision of `processFlashcardsData`, as an
optional output pair: non-string and empty-string values produce nothing. -/
def entryOf (wv : String × JsVal) : Option (String × VocabularyEntry) :=
  match wv.2 with
  | JsVal.vstr content =>
    if content = "" then none else some (wv.1, parseFlashcard content)
  | _ => none

theorem foldl_entryStep_snd :
    ∀ (data : List (String × JsVal)) (refs : List (String × String))
      (out : List (String × VocabularyEntry)),
    (data.foldl entryStep (refs, out)).2 = out ++ data.filterMap entryOf
  | [], refs, out => by simp
  | (w, v) :: rest, refs, out => by
    cases v with
    | vstr content =>
      by_cases hc : content = ""
      · subst hc
        simp only [List.foldl_cons, entryStep, List.filterMap_cons, entryOf, if_pos rfl]
        exact foldl_entryStep_snd rest refs out
      · simp only [List.foldl_cons, entryStep, List.filterMap_cons, entryOf, if_neg hc]
        rw [foldl_entryStep_snd rest _ _]
        simp
    | vnull =>
      simp only [List.foldl_cons, entryStep, List.filterMap_cons, entryOf]
      exact foldl_entryStep_snd rest refs out
    | vundef =>
      simp only [List.foldl_cons, entryStep, List.filterMap_cons, entryOf]
      exact foldl_entryStep_snd rest refs out
    | vnum n =>
      simp only [List.foldl_cons, entryStep, List.filterMap_cons, entryOf]
      exact foldl_entryStep_snd rest refs out

theorem processFlashcardsData_eq_filterMap (data : List (String × JsVal)) :
    processFlashcardsData data = data.filterMap entryOf := by
  show (data.foldl entryStep ([], [])).2 = data.filterMap entryOf
  rw [foldl_entryStep_snd data [] []]
  simp

theorem lookup_filterMap_entryOf_none {kk : String} :
    ∀ (data : List (String × JsVal)), kk ∉ data.map Prod.fst →
    (data.filterMap entryOf).lookup kk = none
  | [], _ => rfl
  | (w, v) :: rest, h => by
    have hk : kk ≠ w ∧ kk ∉ rest.map Prod.fst := by
      simp only [List.map_cons, List.mem_cons] at h
      push_neg at h
      exact h
    have hbeq : (kk == w) = false := beq_eq_false_iff_ne.mpr hk.1
    cases v with
    | vstr content =>
      by_cases hc : content = ""
      · simp only [List.filterMap_cons, entryOf, hc, if_pos rfl]
        exact lookup_filterMap_entryOf_none rest hk.2
      · simp only [List.filterMap_cons, entryOf, if_neg hc]
        simp only [List.lookup, hbeq]
        exact lookup_filterMap_entryOf_none rest hk.2
    | vnull =>
      simp only [List.filterMap_cons, entryOf]
      exact lookup_filterMap_entryOf_none rest hk.2
    | vundef =>
      simp only [List.filterMap_cons, entryOf]
      exact lookup_filterMap_entryOf_none rest hk.2
    | vnum n =>
      simp only [List.filterMap_cons, entryOf]
      exact lookup_filterMap_entryOf_none rest hk.2

theorem lookup_filterMap_empty_skip {kk : String} :
    ∀ (data : List (String × JsVal)), (data.map Prod.fst).Nodup →
    data.lookup kk = some (JsVal.vstr "") →
    (data.filterMap entryOf).lookup kk = none
  | [], _, h => by simp [List.lookup] at h
  | (w, v) :: rest, hnd, h => by
    rw [List.map_cons, List.nodup_cons] at hnd
    obtain ⟨hw, hnd2⟩ := hnd
    cases hkw : (kk == w) with
    | true =>
      have hkkw : kk = w := eq_of_beq hkw
      simp only [List.lookup, hkw] at h
      cases h
      simp only [List.filterMap_cons, entryOf, if_pos rfl]
      apply lookup_filterMap_entryOf_none rest
      rw [hkkw]
      exact hw
    | false =>
      simp only [List.lookup, hkw] at h
      have ih := lookup_filterMap_empty_skip rest hnd2 h
      cases v with
      | vstr content =>
        by_cases hc : content = ""
        · simp only [List.filterMap_cons, entryOf, hc, if_pos rfl]
          exact ih
        · simp only [List.filterMap_cons, entryOf, if_neg hc]
          simp only [List.lookup, hkw]
          exact ih
      | vnull =>
        simp only [List.filterMap_cons, entryOf]
        exact ih
      | vundef =>
        simp only [List.filterMap_cons, entryOf]
        exact ih
      | vnum n =>
        simp only [List.filterMap_cons, entryOf]
        exact ih

/-- C10: an entry whose dictionary value is the empty string is skipped by
batch processing exactly like null or non-string values — the output
contains no entry for its key — even though the per-entry parser accepts the
empty string and would produce the all-empty-defaults record for it. -/
theorem c10_empty_string_skipped :
    (∀ (data : List (String × JsVal)) (kk : String), (data.map Prod.fst).Nodup →
      data.lookup kk = some (JsVal.vstr "") →
      (processFlashcardsData data).lookup kk = none)
    ∧ parseFlashcard "" = ⟨"", "", [], [], [], []⟩ := by
  constructor
  · intro data kk hnd h
    rw [processFlashcardsData_eq_filterMap]
    exact lookup_filterMap_empty_skip data hnd h
  · decide

theorem c10_empty_string_skipped_witness :
    (processFlashcardsData [("a", JsVal.vstr ""), ("c", JsVal.vstr "x")]).lookup "a" = none :=
  c10_empty_string_skipped.1 [("a", JsVal.vstr ""), ("c", JsVal.vstr "x")] "a"
    (by decide) (by decide)

theorem c4_title_trimming_witness :
    strTrim (extractTitleInfo "# **好 (hǎo)** - Good").english
      = (extractTitleInfo "# **好 (hǎo)** - Good").english :=
  c4_title_trimming.1 "# **好 (hǎo)** - Good"
